import Mathlib

/-!
Verification of the component render runtime specified by this repository's
spec against a shallow embedding.  The repository's own source
(`src/snippets/mod.rs`) contains only example components exercising the
runtime; the runtime itself (arena allocator, virtual node tree, hook store,
context registry, diff engine, task scheduler, suspense resolver) is not part
of the sources, so those parts are modelled from the spec, as marked on each
definition.  The `ErrorHandling` snippet is embedded directly from the source.
-/

namespace RenderRuntime

/-- Modelled from the spec: the runtime's virtual node tree is missing from the
sources. §3 Data Model, "Virtual Node": a tagged variant over Text,
Element(tag, attribute mapping, ordered children, event-listener bindings),
Fragment(ordered children), ComponentPlaceholder(instance id).  Attributes are
an ordered name-value mapping; listener bindings are kept as event names.
Stable keys (an optional feature of §4.5) are not exercised by any claim and
all child lists here are unkeyed. -/
inductive VNode where
  | text (content : String)
  | element (tag : String) (attrs : List (String × String))
      (listeners : List String) (children : List VNode)
  | fragment (children : List VNode)
  | placeholder (instanceId : Nat)

/-- Modelled from the spec: the runtime's patch type is missing from the
sources. §3 Data Model, "Patch": a single structural edit (insert node,
remove node, replace node, update attribute, update text, reorder children)
with positional information (a path of child indices from the subtree root). -/
inductive Patch where
  | insertNode (path : List Nat) (node : VNode)
  | removeNode (path : List Nat)
  | replaceNode (path : List Nat) (node : VNode)
  | setAttribute (path : List Nat) (name value : String)
  | removeAttribute (path : List Nat) (name : String)
  | updateText (path : List Nat) (content : String)
  | reorderChildren (path : List Nat) (perm : List Nat)

def Patch.isInsert : Patch → Bool
  | .insertNode _ _ => true
  | _ => false

def Patch.isRemove : Patch → Bool
  | .removeNode _ => true
  | _ => false

def Patch.isUpdateText : Patch → Bool
  | .updateText _ _ => true
  | _ => false

/-- Modelled from the spec: the diff engine's attribute pass is missing from
the sources. §4.5: "diff attributes (set/changed/removed as individual
patches)".  Emits a set patch for every attribute of the new mapping whose
value is absent or different in the old mapping, and a remove patch for every
attribute of the old mapping absent from the new one. -/
def diffAttrs (path : List Nat) (old new : List (String × String)) : List Patch :=
  (new.filterMap fun (k, v) =>
    match old.lookup k with
    | some v' => if v' = v then none else some (Patch.setAttribute path k v)
    | none => some (Patch.setAttribute path k v)) ++
  (old.filterMap fun (k, _) =>
    match new.lookup k with
    | some _ => none
    | none => some (Patch.removeAttribute path k))

mutual

/-- Modelled from the spec: the diff engine is missing from the sources.
§4.5, by node kind pairing: Text vs Text emits update-text only if content
differs; Element vs Element with the same tag diffs attributes and children
positionally; ComponentPlaceholder vs ComponentPlaceholder for the same
instance id recurses into that instance's own diff (no patch at this level);
Fragment vs Fragment diffs the contained sequences with no wrapping node;
mismatched kinds or tags replace the old node with the new one. -/
def diff (path : List Nat) : VNode → VNode → List Patch
  | .text a, .text b => if a = b then [] else [Patch.updateText path b]
  | .element ta aa _ ca, .element tb ab lb cb =>
      if ta = tb then diffAttrs path aa ab ++ diffChildren path 0 ca cb
      else [Patch.replaceNode path (.element tb ab lb cb)]
  | .fragment ca, .fragment cb => diffChildren path 0 ca cb
  | .placeholder ia, .placeholder ib =>
      if ia = ib then [] else [Patch.replaceNode path (.placeholder ib)]
  | _, n => [Patch.replaceNode path n]

/-- Modelled from the spec: the diff engine's unkeyed child pass is missing
from the sources.  §4.5 tie-break rule: children are matched by position up to
the shorter length, then the remainder is purely inserted (new list longer) or
purely removed (old list longer). -/
def diffChildren (path : List Nat) (i : Nat) : List VNode → List VNode → List Patch
  | [], [] => []
  | [], n :: ns => Patch.insertNode (path ++ [i]) n :: diffChildren path (i + 1) [] ns
  | _ :: os, [] => Patch.removeNode (path ++ [i]) :: diffChildren path (i + 1) os []
  | o :: os, n :: ns => diff (path ++ [i]) o n ++ diffChildren path (i + 1) os ns

end

mutual

/-- Well-formedness of a virtual node: every attribute list is a genuine
mapping, i.e. its keys are pairwise distinct (§3 calls it an "attribute
mapping"), recursively at every element of the tree. -/
def VNode.wf : VNode → Bool
  | .text _ => true
  | .element _ attrs _ cs => ((attrs.map Prod.fst).Nodup : Bool) && wfList cs
  | .fragment cs => wfList cs
  | .placeholder _ => true

/-- Well-formedness of a list of children. -/
def wfList : List VNode → Bool
  | [] => true
  | c :: cs => c.wf && wfList cs

end

/-- Modelled from the spec: the hook store's write path is missing from the
sources.  §4.3: a write is either a plain set of a value or, per the open
question resolved by the `Stateful` snippet's read-modify-write accessor
(the counter uses a compound increment), an in-place modification of the
stored value. -/
inductive Write (α : Type) where
  | set (v : α)
  | modify (f : α → α)

/-- Modelled from the spec: applying one queued write to the current stored
value — a set replaces the value, a read-modify-write accessor transforms it. -/
def applyWrite (cur : α) : Write α → α
  | .set v => v
  | .modify f => f cur

/-- Modelled from the spec: §4.3 — writes queued between two renders are
applied in order at the next render, so plain sets coalesce to the last value
while read-modify-write accessors compose. -/
def applyWrites (cur : α) (ws : List (Write α)) : α :=
  ws.foldl applyWrite cur

/-- Modelled from the spec: §3 "Hook Slot" and §4.3 — one component instance's
hook state: the committed slot values (ordered, append-only per render), the
writes queued since the last render (slot index paired with the write), and
the dirty flag. -/
structure HookInstance (α : Type) where
  slots : List α
  pending : List (Nat × Write α)
  dirty : Bool

/-- Modelled from the spec: §4.3 `use_state` — reading slot `idx` during a
render: on the first call for a slot (the slot does not exist yet, i.e. the
index is the current slot count) the initial value is stored and returned; on
subsequent renders the existing stored value is returned and the initial
argument is ignored. -/
def useState (inst : HookInstance α) (idx : Nat) (initial : α) :
    α × HookInstance α :=
  match inst.slots.get? idx with
  | some v => (v, inst)
  | none => (initial, { inst with slots := inst.slots ++ [initial] })

/-- Modelled from the spec: §4.3 — a write through the write handle is queued
for the next render and marks the instance dirty; the committed slots are not
touched. -/
def enqueueWrite (inst : HookInstance α) (idx : Nat) (w : Write α) :
    HookInstance α :=
  { inst with pending := inst.pending ++ [(idx, w)], dirty := true }

/-- Modelled from the spec: §4.3 — applying the queued writes, in order, to
the committed slots at the start of the next render.  A write to a slot that
does not exist is dropped. -/
def applyPending (slots : List α) : List (Nat × Write α) → List α
  | [] => slots
  | (i, w) :: rest =>
      applyPending
        (match slots.get? i with
         | some v => slots.set i (applyWrite v w)
         | none => slots) rest

/-- Modelled from the spec: §4.3 — the transition from one render to the
next: queued writes become visible, the queue empties, the dirty flag
clears. -/
def commitWrites (inst : HookInstance α) : HookInstance α :=
  { slots := applyPending inst.slots inst.pending, pending := [], dirty := false }

/-- Modelled from the spec: §4.4 `use_context` — walks the ancestor chain
upward from the instance (the chain lists the instance itself first, then its
parent, and so on) and returns the nearest publisher's value under the key, or
none if no ancestor published it. -/
def useContext (published : Nat → String → Option α) (key : String) :
    List Nat → Option α
  | [] => none
  | i :: rest =>
      match published i key with
      | some v => some v
      | none => useContext published key rest

/-- Modelled from the spec: §4.4 `provide_context` — publishes a value under
the key at the given instance, leaving every other entry of the registry
unchanged. -/
def provideContext (published : Nat → String → Option α) (i : Nat)
    (key : String) (v : α) : Nat → String → Option α :=
  fun j k => if j = i then (if k = key then some v else published j k)
    else published j k

/-- Modelled from the spec: §4.2 failure mode — committing one instance's
render result: when the render short-circuits with no result, the previously
committed tree is retained unchanged and no patch is emitted; when it produces
a tree, the new tree is committed and the patches are the diff against the
previous one (or an initial mount insert). -/
def commitInstance (committed : Option VNode) (result : Option VNode) :
    Option VNode × List Patch :=
  match result with
  | none => (committed, [])
  | some t =>
      (some t,
        match committed with
        | none => [Patch.insertNode [] t]
        | some old => diff [] old t)

/-- Modelled from the spec: §7 propagation policy — a render pass over a list
of instances (each given as its previously committed tree paired with its
render result) commits every instance independently, so one instance's
abstention cannot abort a sibling's commit. -/
def renderPass (insts : List (Option VNode × Option VNode)) :
    List (Option VNode × List Patch) :=
  insts.map fun cr => commitInstance cr.1 cr.2

/-- Modelled from the spec: §4.6 — the per-task state machine
Created → Running → one of Completed, Cancelled, Errored. -/
inductive TaskState where
  | created
  | running
  | completed
  | cancelled
  | errored
deriving DecidableEq

/-- Modelled from the spec: §3 "Task Handle" — a background unit of work owned
exclusively by the component instance that created it. -/
structure Task where
  owner : Nat
  state : TaskState
deriving DecidableEq

/-- Modelled from the spec: §5 and §4.6 — the scheduler-visible state: the
live instances, the tasks (a task id is an index into the list), the
dirty-marked instances, and the committed tree of each instance. -/
structure Sched where
  live : Finset Nat
  tasks : List Task
  dirty : Finset Nat
  trees : Nat → Option VNode

/-- Modelled from the spec: §3 and §4.6 — destroying an instance: it leaves
the live set, every task it owns is transitioned to Cancelled, its pending
dirty mark is dropped and its committed tree is torn down. -/
def destroyInstance (s : Sched) (i : Nat) : Sched :=
  { live := s.live.erase i
    tasks := s.tasks.map fun t =>
      if t.owner = i then { t with state := TaskState.cancelled } else t
    dirty := s.dirty.erase i
    trees := fun j => if j = i then none else s.trees j }

/-- Modelled from the spec: §4.6 and §5 — the scheduler's step relation.
`spawn` binds a new running task to a live instance; `taskDirty` is a running
task marking its owning instance dirty through the next-cycle write path;
`taskComplete` and `taskFail` are the terminal transitions of a running task;
`render` re-renders a live dirty instance, updating its committed tree;
`destroy` destroys a live instance. -/
inductive Step : Sched → Sched → Prop where
  | spawn (s : Sched) (i : Nat) (h : i ∈ s.live) :
      Step s { s with tasks := s.tasks ++ [⟨i, TaskState.running⟩] }
  | taskDirty (s : Sched) (tid : Nat) (h : tid < s.tasks.length)
      (hr : (s.tasks.get ⟨tid, h⟩).state = TaskState.running) :
      Step s { s with dirty := insert (s.tasks.get ⟨tid, h⟩).owner s.dirty }
  | taskComplete (s : Sched) (tid : Nat) (h : tid < s.tasks.length)
      (hr : (s.tasks.get ⟨tid, h⟩).state = TaskState.running) :
      Step s { s with tasks :=
        (s.tasks.set tid ⟨(s.tasks.get ⟨tid, h⟩).owner, TaskState.completed⟩) }
  | taskFail (s : Sched) (tid : Nat) (h : tid < s.tasks.length)
      (hr : (s.tasks.get ⟨tid, h⟩).state = TaskState.running) :
      Step s { s with tasks :=
        (s.tasks.set tid ⟨(s.tasks.get ⟨tid, h⟩).owner, TaskState.errored⟩) }
  | render (s : Sched) (i : Nat) (h1 : i ∈ s.live) (h2 : i ∈ s.dirty)
      (t : VNode) :
      Step s { s with trees := fun j => if j = i then some t else s.trees j
                      dirty := s.dirty.erase i }
  | destroy (s : Sched) (i : Nat) (h : i ∈ s.live) :
      Step s (destroyInstance s i)

/-- An instance is destroyed in a scheduler state when it is no longer live
and every task bound to it is in the Cancelled state. -/
def Destroyed (s : Sched) (i : Nat) : Prop :=
  i ∉ s.live ∧ ∀ t ∈ s.tasks, t.owner = i → t.state = TaskState.cancelled

/-- Modelled from the spec: §4.7 — a suspense record is Pending until its
computation delivers a result (success or failure). -/
inductive SuspState (ε ρ : Type) where
  | pending
  | done (result : Except ε ρ)

/-- Modelled from the spec: §3 "Suspense Record" — the record state together
with the owning instance's dirty flag. -/
structure SuspRecord (ε ρ : Type) where
  state : SuspState ε ρ
  dirty : Bool

/-- Modelled from the spec: §4.7 — on first invocation the record is Pending
and the instance is not yet dirty (the fallback is rendered in this pass). -/
def suspendInit : SuspRecord ε ρ := ⟨SuspState.pending, false⟩

/-- Modelled from the spec: §4.7 and §5 — the completion callback: delivers
the computation's result (success or failure) as a value, marks the instance
dirty, and resolves at most once (a completed record is unchanged). -/
def suspComplete (r : Except ε ρ) : SuspRecord ε ρ → SuspRecord ε ρ
  | ⟨SuspState.pending, _⟩ => ⟨SuspState.done r, true⟩
  | s => s

/-- Modelled from the spec: §4.7 — the node a render shows for the record: the
fallback renderer's output while Pending, the resolved renderer applied to the
delivered result once done. -/
def suspShown (fallback : VNode) (resolvedRenderer : Except ε ρ → VNode) :
    SuspRecord ε ρ → VNode
  | ⟨SuspState.pending, _⟩ => fallback
  | ⟨SuspState.done r, _⟩ => resolvedRenderer r

/-- Modelled from the spec: §4.7 and §8 — the record as seen by render tick
`t` (ticks are 1-based) when the computation completes after `N` ticks: tick 1
is the first invocation (Pending); the completion callback fires on the tick
boundary entering tick `N`. -/
def suspAtTick (N : Nat) (r : Except ε ρ) : Nat → SuspRecord ε ρ
  | 0 => suspendInit
  | 1 => suspendInit
  | t + 2 =>
      if t + 2 = N then suspComplete r (suspAtTick N r (t + 1))
      else suspAtTick N r (t + 1)

/-- From the source (`Suspense` snippet): the resolved renderer — an `img`
whose `src` is the delivered message on success, a fallback `div` on
failure. -/
def dogResolvedRenderer (res : Except String String) : VNode :=
  match res with
  | .ok msg => VNode.element "img" [("src", msg)] [] []
  | .error _ => VNode.element "div" [] [] [VNode.text "No doggos for you :("]

/-- Modelled from the spec: §4.1 — the arena: the high-water mark of acquired
backing memory, the bump offset of the current generation, and the generation
counter. -/
structure Arena where
  capacity : Nat
  used : Nat
  generation : Nat

/-- Modelled from the spec: §4.1 `allocate` — bump allocation: advances the
offset, acquiring new backing memory only when the offset passes the
high-water mark. -/
def Arena.allocate (a : Arena) (size : Nat) : Arena :=
  { a with used := a.used + size, capacity := max a.capacity (a.used + size) }

/-- Modelled from the spec: §4.1 `reset_generation` — invalidates the prior
generation and makes its memory reusable: the offset returns to zero, the
acquired memory is kept (no per-node deallocation, freeing is only ever
whole-generation). -/
def Arena.resetGeneration (a : Arena) : Arena :=
  { a with used := 0, generation := a.generation + 1 }

mutual

/-- Modelled from the spec: §4.2 — building a tree of a given shape allocates
each of its nodes from the arena, one allocation per node. -/
def allocTree : VNode → Arena → Arena
  | .text _, a => a.allocate 1
  | .element _ _ _ cs, a => allocList cs (a.allocate 1)
  | .fragment cs, a => allocList cs (a.allocate 1)
  | .placeholder _, a => a.allocate 1

/-- Modelled from the spec: §4.2 — allocating a list of children in order. -/
def allocList : List VNode → Arena → Arena
  | [], a => a
  | c :: cs, a => allocList cs (allocTree c a)

end

mutual

/-- The number of nodes of a tree. -/
def treeSize : VNode → Nat
  | .text _ => 1
  | .element _ _ _ cs => 1 + listSize cs
  | .fragment cs => 1 + listSize cs
  | .placeholder _ => 1

/-- The number of nodes of a list of trees. -/
def listSize : List VNode → Nat
  | [] => 0
  | c :: cs => treeSize c + listSize cs

end

/-- Modelled from the spec: §2 "Render Loop" and §4.1 — one render cycle of a
fixed tree shape: build the generation's tree from the arena, then reset the
generation once the render+diff cycle completes. -/
def renderCycle (shape : VNode) (a : Arena) : Arena :=
  Arena.resetGeneration (allocTree shape a)

/-- From the source (`ErrorHandling` snippet): the fixed item list. -/
def errorHandlingItems : List String := ["a", "b", "c", "d", "e"]

/-- From the source (`ErrorHandling` snippet): the render body — selects the
first item through the fallible accessor and the question-mark operator
(abstaining when the list is empty), then renders an `h1` with the
interpolated text. -/
def errorHandlingRender : Option VNode := do
  let firstItem ← errorHandlingItems.head?
  pure (VNode.element "h1" [] []
    [VNode.text ("First item: " ++ firstItem)])

/-- Two trees that differ only in the content of a single text node: either
the trees are both that text node, or they are the same element (same tag,
attributes, listeners) or the same fragment whose child lists agree except at
one position, where the two children again differ only in one text content. -/
inductive OneTextDiff : VNode → VNode → Prop where
  | here (s s' : String) (h : s ≠ s') : OneTextDiff (.text s) (.text s')
  | inElement (tag : String) (attrs : List (String × String)) (ls : List String)
      (pre post : List VNode) (c c' : VNode) (h : OneTextDiff c c') :
      OneTextDiff (.element tag attrs ls (pre ++ c :: post))
        (.element tag attrs ls (pre ++ c' :: post))
  | inFragment (pre post : List VNode) (c c' : VNode) (h : OneTextDiff c c') :
      OneTextDiff (.fragment (pre ++ c :: post)) (.fragment (pre ++ c' :: post))

theorem wfList_append (xs ys : List VNode) :
    wfList (xs ++ ys) = (wfList xs && wfList ys) := by
  induction xs with
  | nil => simp [wfList]
  | cons x xs ih => simp [wfList, ih, Bool.and_assoc]

theorem lookup_self (l : List (String × String))
    (h : (l.map Prod.fst).Nodup) (k v : String) (hm : (k, v) ∈ l) :
    l.lookup k = some v := by
  induction l with
  | nil => simp at hm
  | cons hd tl ih =>
      obtain ⟨k', v'⟩ := hd
      simp only [List.map_cons, List.nodup_cons] at h
      rcases List.mem_cons.mp hm with heq | htl
      · obtain ⟨hk, hv⟩ := Prod.mk.injEq .. ▸ heq
        simp [List.lookup, hk.symm, hv]
      · have hne : k ≠ k' := by
          intro hkk
          exact h.1 (hkk ▸ List.mem_map_of_mem Prod.fst htl)
        have hb : (k == k') = false := beq_eq_false_iff_ne.mpr hne
        simp only [List.lookup, hb]
        exact ih h.2 htl

theorem lookup_mem_isSome (l : List (String × String)) (k v : String)
    (hm : (k, v) ∈ l) : ∃ w, l.lookup k = some w := by
  induction l with
  | nil => simp at hm
  | cons hd tl ih =>
      obtain ⟨k', v'⟩ := hd
      by_cases hk : k = k'
      · exact ⟨v', by simp [List.lookup, hk]⟩
      · rcases List.mem_cons.mp hm with heq | htl
        · cases heq; simp at hk
        · obtain ⟨w, hw⟩ := ih htl
          have hb : (k == k') = false := beq_eq_false_iff_ne.mpr hk
          exact ⟨w, by simp only [List.lookup, hb]; exact hw⟩

theorem diffAttrs_self (path : List Nat) (attrs : List (String × String))
    (h : (attrs.map Prod.fst).Nodup) : diffAttrs path attrs attrs = [] := by
  unfold diffAttrs
  rw [List.append_eq_nil]
  constructor
  · rw [List.filterMap_eq_nil_iff]
    rintro ⟨k, v⟩ hm
    dsimp only
    rw [lookup_self attrs h k v hm]
    simp
  · rw [List.filterMap_eq_nil_iff]
    rintro ⟨k, v⟩ hm
    obtain ⟨w, hw⟩ := lookup_mem_isSome attrs k v hm
    dsimp only
    rw [hw]

mutual

theorem diff_self (path : List Nat) (t : VNode) (h : t.wf = true) :
    diff path t t = [] := by
  cases t with
  | text s => simp [diff]
  | element tag attrs ls cs =>
      simp only [VNode.wf, Bool.and_eq_true, decide_eq_true_eq] at h
      simp only [diff, if_pos rfl]
      rw [diffAttrs_self path attrs h.1, diffChildren_self path 0 cs h.2]
      rfl
  | fragment cs =>
      simp only [VNode.wf] at h
      simp only [diff]
      exact diffChildren_self path 0 cs h
  | placeholder i => simp [diff]

theorem diffChildren_self (path : List Nat) (i : Nat) (cs : List VNode)
    (h : wfList cs = true) : diffChildren path i cs cs = [] := by
  cases cs with
  | nil => simp [diffChildren]
  | cons c cs =>
      simp only [wfList, Bool.and_eq_true] at h
      simp only [diffChildren]
      rw [diff_self (path ++ [i]) c h.1, diffChildren_self path (i + 1) cs h.2]
      rfl

end

theorem diffChildren_one (path : List Nat) (i : Nat) (pre post : List VNode)
    (c c' : VNode) (hpre : wfList pre = true) :
    diffChildren path i (pre ++ c :: post) (pre ++ c' :: post) =
      diff (path ++ [i + pre.length]) c c' ++ diffChildren path (i + pre.length + 1) post post := by
  induction pre generalizing i with
  | nil => simp [diffChildren]
  | cons p pre ih =>
      simp only [wfList, Bool.and_eq_true] at hpre
      simp only [List.cons_append, diffChildren]
      rw [diff_self (path ++ [i]) p hpre.1, ih (i + 1) hpre.2]
      simp only [List.nil_append, List.length_cons]
      have h1 : i + 1 + pre.length = i + (pre.length + 1) := by omega
      rw [h1]

theorem oneTextDiff_patch (path : List Nat) (a b : VNode)
    (hd : OneTextDiff a b) (hw : a.wf = true) :
    ∃ p s, diff path a b = [Patch.updateText p s] := by
  induction hd generalizing path with
  | here s s' h =>
      exact ⟨path, s', by simp [diff, h]⟩
  | inElement tag attrs ls pre post c c' h ih =>
      simp only [VNode.wf, Bool.and_eq_true, decide_eq_true_eq, wfList_append,
        wfList] at hw
      obtain ⟨hattrs, hpre, hc, hpost⟩ := hw
      obtain ⟨p, s, hp⟩ := ih (path ++ [0 + pre.length]) hc
      refine ⟨p, s, ?_⟩
      simp only [diff, if_pos rfl]
      rw [diffAttrs_self path attrs hattrs,
        diffChildren_one path 0 pre post c c' hpre, hp,
        diffChildren_self path (0 + pre.length + 1) post hpost]
      rfl
  | inFragment pre post c c' h ih =>
      simp only [VNode.wf, wfList_append, wfList, Bool.and_eq_true] at hw
      obtain ⟨hpre, hc, hpost⟩ := hw
      obtain ⟨p, s, hp⟩ := ih (path ++ [0 + pre.length]) hc
      refine ⟨p, s, ?_⟩
      simp only [diff]
      rw [diffChildren_one path 0 pre post c c' hpre, hp,
        diffChildren_self path (0 + pre.length + 1) post hpost]
      rfl

theorem diffChildren_nil_right (path : List Nat) (i : Nat) (old : List VNode) :
    diffChildren path i old [] =
      (List.range old.length).map (fun k => Patch.removeNode (path ++ [i + k])) := by
  induction old generalizing i with
  | nil => simp [diffChildren]
  | cons o os ih =>
      simp only [diffChildren, ih (i + 1), List.length_cons, List.range_succ_eq_map,
        List.map_cons, List.map_map]
      refine List.cons_eq_cons.mpr ⟨by simp, ?_⟩
      apply List.map_congr_left
      intro k _
      simp only [Function.comp_apply]
      have : i + 1 + k = i + (k + 1) := by omega
      rw [this]

theorem diffChildren_shrink (path : List Nat) (i : Nat) (old new : List VNode)
    (h : new.length ≤ old.length) :
    diffChildren path i old new =
      diffChildren path i (old.take new.length) new ++
        (List.range (old.length - new.length)).map
          (fun k => Patch.removeNode (path ++ [i + new.length + k])) := by
  induction new generalizing old i with
  | nil =>
      simp only [List.length_nil, List.take_zero, diffChildren, List.nil_append,
        Nat.sub_zero, diffChildren_nil_right]
      apply List.map_congr_left
      intro k _
      have : i + 0 + k = i + k := by omega
      rw [this]
  | cons n ns ih =>
      cases old with
      | nil => simp at h
      | cons o os =>
          simp only [List.length_cons] at h
          have hle : ns.length ≤ os.length := Nat.succ_le_succ_iff.mp h
          simp only [List.length_cons, List.take_succ_cons, diffChildren,
            List.append_assoc]
          rw [ih (i + 1) os hle]
          simp only [List.append_assoc, Nat.succ_sub_succ]
          congr 2
          apply List.map_congr_left
          intro k _
          have : i + 1 + ns.length + k = i + (ns.length + 1) + k := by omega
          rw [this]

/-- C1: when a render short-circuits with no result, the instance's
previously committed tree is retained unchanged and no patch is emitted for
it; the abstention is an ordinary value of the result type, and every other
instance of the same render pass is committed exactly as it would be on its
own, so the abstention aborts no sibling or ancestor commit. -/
theorem render_abstain_freezes :
    (∀ committed : Option VNode, commitInstance committed none = (committed, [])) ∧
    (∀ (insts : List (Option VNode × Option VNode)) (j : Nat)
        (hj : j < insts.length),
        (renderPass insts).get ⟨j, by simpa [renderPass] using hj⟩ =
          commitInstance (insts.get ⟨j, hj⟩).1 (insts.get ⟨j, hj⟩).2) := by
  constructor
  · intro committed
    rfl
  · intro insts j hj
    simp [renderPass]

/-- Witness for C1 at a concrete render pass: the first instance abstains and
keeps its committed tree with no patches, while its sibling commits
normally. -/
theorem render_abstain_freezes_witness :
    (renderPass
        [(some (VNode.text "kept"), none),
         (some (VNode.text "x"), some (VNode.text "y"))]).get ⟨0, by simp [renderPass]⟩ =
      (some (VNode.text "kept"), []) := by
  rw [render_abstain_freezes.2
    [(some (VNode.text "kept"), none), (some (VNode.text "x"), some (VNode.text "y"))]
    0 (by simp)]
  rfl

/-- C2: three queued read-modify-write increments on a slot holding 0 are all
visible on the next render, which observes 3; plain set-style writes coalesce
so that only the last value written is visible. -/
theorem state_write_coalescing :
    (useState (commitWrites (enqueueWrite (enqueueWrite (enqueueWrite
        (⟨[0], [], false⟩ : HookInstance Nat)
        0 (Write.modify fun n => n + 1))
        0 (Write.modify fun n => n + 1))
        0 (Write.modify fun n => n + 1))) 0 0).1 = 3 ∧
    ∀ (cur v : Nat) (vs : List Nat),
      applyWrites cur (vs.map Write.set ++ [Write.set v]) = v := by
  constructor
  · rfl
  · intro cur v vs
    simp [applyWrites, List.foldl_append, applyWrite]

/-- C3: `use_state` stores the initial value only on the first render of a
slot; on subsequent renders it returns the stored value and ignores the
initial argument; a write through the write handle leaves the committed slots
untouched (so a read in the same pass is unchanged) and marks the instance
dirty; the written value is visible after the commit to the next render. -/
theorem use_state_slot_semantics :
    (∀ (α : Type) (inst : HookInstance α) (idx : Nat) (init init' : α)
        (h : idx < inst.slots.length),
        (useState inst idx init).1 = inst.slots.get ⟨idx, h⟩ ∧
        useState inst idx init = useState inst idx init') ∧
    (∀ (α : Type) (inst : HookInstance α) (init : α),
        (useState inst inst.slots.length init).1 = init ∧
        (useState inst inst.slots.length init).2.slots = inst.slots ++ [init]) ∧
    (∀ (α : Type) (inst : HookInstance α) (idx : Nat) (w : Write α),
        (enqueueWrite inst idx w).slots = inst.slots ∧
        (enqueueWrite inst idx w).dirty = true ∧
        ∀ (j : Nat) (i2 : α),
          (useState (enqueueWrite inst idx w) j i2).1 = (useState inst j i2).1) ∧
    (∀ (α : Type) (inst : HookInstance α) (idx : Nat) (v : α),
        idx < inst.slots.length → inst.pending = [] →
        (commitWrites (enqueueWrite inst idx (Write.set v))).slots.get? idx =
          some v) := by
  refine ⟨?_, ?_, ?_, ?_⟩
  · intro α inst idx init init' h
    rw [useState, useState, List.get?_eq_get h]
    exact ⟨rfl, rfl⟩
  · intro α inst init
    have hn : inst.slots.get? inst.slots.length = none := by
      simp [List.get?_eq_none]
    rw [useState, hn]
    exact ⟨rfl, rfl⟩
  · intro α inst idx w
    refine ⟨rfl, rfl, ?_⟩
    intro j i2
    simp only [useState, enqueueWrite]
    cases h : inst.slots.get? j <;> simp [h]
  · intro α inst idx v h hp
    rw [commitWrites, enqueueWrite]
    simp only [hp, List.nil_append]
    rw [applyPending, List.get?_eq_get h]
    simp only [applyPending, applyWrite]
    rw [List.get?_eq_getElem?, List.getElem?_set_eq_of_lt v h]

/-- Witness for C3 at a concrete instance: a populated slot returns its
stored value whatever the initial argument, and a committed set write is
visible at the next render. -/
theorem use_state_slot_semantics_witness :
    (useState (⟨[5], [], false⟩ : HookInstance Nat) 0 99).1 = 5 ∧
    (commitWrites (enqueueWrite (⟨[5], [], false⟩ : HookInstance Nat)
        0 (Write.set 7))).slots.get? 0 = some 7 := by
  constructor
  · exact (use_state_slot_semantics.1 Nat ⟨[5], [], false⟩ 0 99 100 (by simp)).1
  · exact use_state_slot_semantics.2.2.2 Nat ⟨[5], [], false⟩ 0 7 (by simp) rfl

/-- C6: `use_context` walks the ancestor chain upward and returns the nearest
publisher's value (the instance itself counting as nearest), signals absence
when no ancestor published the key, and a value published with
`provide_context` is visible on every chain below the publisher. -/
theorem use_context_nearest_publisher :
    (∀ (α : Type) (published : Nat → String → Option α) (key : String)
        (pre rest : List Nat) (p : Nat) (v : α),
        (∀ q ∈ pre, published q key = none) → published p key = some v →
        useContext published key (pre ++ p :: rest) = some v) ∧
    (∀ (α : Type) (published : Nat → String → Option α) (key : String)
        (chain : List Nat),
        (∀ q ∈ chain, published q key = none) →
        useContext published key chain = none) ∧
    (∀ (α : Type) (published : Nat → String → Option α) (i : Nat)
        (key : String) (v : α) (pre rest : List Nat),
        (∀ q ∈ pre, provideContext published i key v q key = none) →
        useContext (provideContext published i key v) key (pre ++ i :: rest) =
          some v) := by
  have walk : ∀ (α : Type) (published : Nat → String → Option α) (key : String)
      (pre rest : List Nat) (p : Nat) (v : α),
      (∀ q ∈ pre, published q key = none) → published p key = some v →
      useContext published key (pre ++ p :: rest) = some v := by
    intro α published key pre rest p v hpre hp
    induction pre with
    | nil => simp [useContext, hp]
    | cons q pre ih =>
        have hq : published q key = none := hpre q (by simp)
        simp only [List.cons_append, useContext, hq]
        exact ih fun q' hq' => hpre q' (by simp [hq'])
  refine ⟨walk, ?_, ?_⟩
  · intro α published key chain habs
    induction chain with
    | nil => rfl
    | cons q rest ih =>
        have hq : published q key = none := habs q (by simp)
        simp only [useContext, hq]
        exact ih fun q' hq' => habs q' (by simp [hq'])
  · intro α published i key v pre rest hpre
    exact walk α (provideContext published i key v) key pre rest i v hpre
      (by simp [provideContext])

/-- Witness for C6 at a concrete registry: the nearest publisher (the parent)
wins over a farther one, an unpublished key is absent, and a freshly provided
value is visible to a descendant chain. -/
theorem use_context_nearest_publisher_witness :
    useContext (fun j _ => if j = 1 then some 10 else if j = 2 then some 20 else none)
      "theme" [0, 1, 2] = some 10 ∧
    useContext (fun _ _ => (none : Option Nat)) "theme" [0, 1, 2] = none ∧
    useContext (provideContext (fun _ _ => (none : Option Nat)) 7 "theme" 42)
      "theme" [3, 7] = some 42 := by
  refine ⟨?_, ?_, ?_⟩
  · exact use_context_nearest_publisher.1 Nat _ "theme" [0] [2] 1 10
      (by intro q hq; simp at hq; simp [hq]) (by simp)
  · exact use_context_nearest_publisher.2.1 Nat _ "theme" [0, 1, 2]
      (by intro q _; rfl)
  · exact use_context_nearest_publisher.2.2 Nat _ 7 "theme" 42 [3] []
      (by intro q hq; simp at hq; simp [hq, provideContext])

theorem step_preserves_destroyed (s s' : Sched) (i : Nat)
    (hd : Destroyed s i) (hs : Step s s') :
    Destroyed s' i ∧ s'.trees i = s.trees i := by
  obtain ⟨hlive, htasks⟩ := hd
  cases hs with
  | spawn j hj =>
      refine ⟨⟨hlive, ?_⟩, rfl⟩
      intro t ht
      rcases List.mem_append.mp ht with hmem | hnew
      · exact htasks t hmem
      · intro hoi
        simp only [List.mem_singleton] at hnew
        subst hnew
        simp only at hoi
        exact absurd (hoi ▸ hj) hlive
  | taskDirty tid h hr => exact ⟨⟨hlive, htasks⟩, rfl⟩
  | taskComplete tid h hr =>
      refine ⟨⟨hlive, ?_⟩, rfl⟩
      intro t ht hoi
      rcases List.mem_or_eq_of_mem_set ht with hmem | hnew
      · exact htasks t hmem hoi
      · subst hnew
        simp only at hoi
        have := htasks (s.tasks.get ⟨tid, h⟩) (s.tasks.get_mem _ _) hoi
        rw [hr] at this
        exact absurd this (by simp)
  | taskFail tid h hr =>
      refine ⟨⟨hlive, ?_⟩, rfl⟩
      intro t ht hoi
      rcases List.mem_or_eq_of_mem_set ht with hmem | hnew
      · exact htasks t hmem hoi
      · subst hnew
        simp only at hoi
        have := htasks (s.tasks.get ⟨tid, h⟩) (s.tasks.get_mem _ _) hoi
        rw [hr] at this
        exact absurd this (by simp)
  | render j h1 h2 t =>
      refine ⟨⟨hlive, htasks⟩, ?_⟩
      have hji : j ≠ i := fun hji => hlive (hji ▸ h1)
      simp only
      rw [if_neg (Ne.symm hji)]
  | destroy j hj =>
      have hji : j ≠ i := fun hji => hlive (hji ▸ hj)
      refine ⟨⟨?_, ?_⟩, ?_⟩
      · simp only [destroyInstance, Finset.mem_erase]
        exact fun hc => hlive hc.2
      · intro t ht hoi
        simp only [destroyInstance, List.mem_map] at ht
        obtain ⟨t0, ht0, hft⟩ := ht
        by_cases hoj : t0.owner = j
        · rw [if_pos hoj] at hft
          subst hft
          simp only at hoi
          exact absurd (hoi ▸ hoj).symm hji
        · rw [if_neg hoj] at hft
          subst hft
          exact htasks t0 ht0 hoi
      · simp only [destroyInstance]
        rw [if_neg (Ne.symm hji)]

theorem destroyed_star (s s' : Sched) (i : Nat) (hd : Destroyed s i)
    (hs : Relation.ReflTransGen Step s s') :
    Destroyed s' i ∧ s'.trees i = s.trees i := by
  induction hs with
  | refl => exact ⟨hd, rfl⟩
  | tail h1 h2 ih =>
      obtain ⟨d, e⟩ := ih
      obtain ⟨d', e'⟩ := step_preserves_destroyed _ _ i d h2
      exact ⟨d', e'.trans e⟩

theorem destroy_establishes (s : Sched) (i : Nat) :
    Destroyed (destroyInstance s i) i := by
  constructor
  · simp [destroyInstance]
  · intro t ht hoi
    simp only [destroyInstance, List.mem_map] at ht
    obtain ⟨t0, _, hft⟩ := ht
    by_cases hoj : t0.owner = i
    · rw [if_pos hoj] at hft
      subst hft
      rfl
    · rw [if_neg hoj] at hft
      subst hft
      exact absurd hoi hoj

/-- C5: destroying an instance transitions every task it owns to Cancelled,
and in every scheduler state reachable from the destruction no task bound to
that instance is anything but Cancelled and the instance's tree entry never
changes again — dirty-marking from such a task is impossible (it requires a
Running task) and no render ever touches the destroyed instance's tree. -/
theorem destroy_cancels_tasks_forever (s : Sched) (i : Nat) (s' : Sched)
    (hs : Relation.ReflTransGen Step (destroyInstance s i) s') :
    (∀ t ∈ (destroyInstance s i).tasks, t.owner = i →
        t.state = TaskState.cancelled) ∧
    (∀ t ∈ s'.tasks, t.owner = i → t.state = TaskState.cancelled) ∧
    s'.trees i = (destroyInstance s i).trees i ∧
    s'.trees i = none := by
  have hd := destroy_establishes s i
  have h2 := destroyed_star _ _ i hd hs
  refine ⟨hd.2, h2.1.2, h2.2, ?_⟩
  rw [h2.2]
  simp [destroyInstance]

/-- Witness for C5 at a concrete scheduler state: one live instance owning
one running task; right after destruction the task is Cancelled and the
instance's tree entry is gone. -/
theorem destroy_cancels_tasks_forever_witness :
    (∀ t ∈ (destroyInstance ⟨{1}, [⟨1, TaskState.running⟩], ∅,
        fun _ => some (VNode.text "old")⟩ 1).tasks,
      t.owner = 1 → t.state = TaskState.cancelled) ∧
    (destroyInstance ⟨{1}, [⟨1, TaskState.running⟩], ∅,
        fun _ => some (VNode.text "old")⟩ 1).trees 1 = none := by
  have h := destroy_cancels_tasks_forever
    ⟨{1}, [⟨1, TaskState.running⟩], ∅, fun _ => some (VNode.text "old")⟩ 1 _
    Relation.ReflTransGen.refl
  exact ⟨h.1, h.2.2.2⟩

theorem suspAtTick_closed (ε ρ : Type) (N : Nat) (hN : 2 ≤ N)
    (r : Except ε ρ) (t : Nat) (ht : 1 ≤ t) :
    suspAtTick N r t =
      if t < N then suspendInit else ⟨SuspState.done r, true⟩ := by
  induction t with
  | zero => omega
  | succ k ih =>
      cases k with
      | zero =>
          rw [if_pos (by omega)]
          rfl
      | succ m =>
          have ihm : suspAtTick N r (m + 1) =
              if m + 1 < N then suspendInit else ⟨SuspState.done r, true⟩ :=
            ih (by omega)
          by_cases h2 : m + 2 = N
          · rw [suspAtTick, if_pos h2, ihm, if_pos (by omega), if_neg (by omega)]
            rfl
          · rw [suspAtTick, if_neg h2, ihm]
            by_cases h3 : m + 2 < N
            · rw [if_pos (by omega), if_pos h3]
            · rw [if_neg (by omega), if_neg h3]

/-- C4: when the pending computation completes after `N` ticks (`N ≥ 2`), the
first invocation records a Pending suspense record and shows the fallback
output; the tree shows the fallback for every tick `1 ≤ t < N` and the
resolved renderer's output applied to the delivered result — success or
failure alike, so a failure arrives as a failure value — from tick `N`
onward; and between consecutive ticks there is a non-empty patch transition
exactly once, at the boundary into tick `N`, produced by the ordinary diff of
the two shown nodes (no special-case patch type). -/
theorem suspense_fallback_then_resolve (ε ρ : Type) (N : Nat) (hN : 2 ≤ N)
    (r : Except ε ρ) (fallback : VNode) (rr : Except ε ρ → VNode)
    (hwf : fallback.wf = true) (hwr : (rr r).wf = true)
    (hne : diff [] fallback (rr r) ≠ []) :
    suspAtTick N r 1 = (⟨SuspState.pending, false⟩ : SuspRecord ε ρ) ∧
    (∀ t, 1 ≤ t → t < N →
        suspShown fallback rr (suspAtTick N r t) = fallback) ∧
    (∀ t, N ≤ t → suspShown fallback rr (suspAtTick N r t) = rr r) ∧
    (∀ t, 1 ≤ t →
        (diff [] (suspShown fallback rr (suspAtTick N r t))
            (suspShown fallback rr (suspAtTick N r (t + 1))) ≠ [] ↔
          t = N - 1)) ∧
    diff [] (suspShown fallback rr (suspAtTick N r (N - 1)))
        (suspShown fallback rr (suspAtTick N r N)) =
      diff [] fallback (rr r) := by
  have hfb : ∀ t, 1 ≤ t → t < N →
      suspShown fallback rr (suspAtTick N r t) = fallback := by
    intro t h1 h2
    rw [suspAtTick_closed ε ρ N hN r t h1, if_pos h2]
    rfl
  have hres : ∀ t, N ≤ t → suspShown fallback rr (suspAtTick N r t) = rr r := by
    intro t h1
    rw [suspAtTick_closed ε ρ N hN r t (by omega), if_neg (by omega)]
    rfl
  refine ⟨rfl, hfb, hres, ?_, ?_⟩
  · intro t h1
    constructor
    · intro hd
      by_contra hne2
      rcases Nat.lt_or_ge (t + 1) N with h2 | h2
      · rw [hfb t h1 (by omega), hfb (t + 1) (by omega) h2] at hd
        exact hd (diff_self [] fallback hwf)
      · have h3 : N ≤ t := by omega
        rw [hres t h3, hres (t + 1) (by omega)] at hd
        exact hd (diff_self [] (rr r) hwr)
    · intro hd
      subst hd
      rw [hfb (N - 1) h1 (by omega), hres (N - 1 + 1) (by omega)]
      exact hne
  · rw [hfb (N - 1) (by omega) (by omega), hres N (by omega)]

/-- Witness for C4 at `N = 3` with the Suspense snippet's resolved renderer
and a failing computation: tick 2 still shows the fallback, tick 3 shows the
renderer's failure-branch output. -/
theorem suspense_fallback_then_resolve_witness :
    suspShown (VNode.text "Waiting for doggos:") dogResolvedRenderer
        (suspAtTick 3 (Except.error "network down") 2) =
      VNode.text "Waiting for doggos:" ∧
    suspShown (VNode.text "Waiting for doggos:") dogResolvedRenderer
        (suspAtTick 3 (Except.error "network down") 3) =
      VNode.element "div" [] [] [VNode.text "No doggos for you :("] := by
  have h := suspense_fallback_then_resolve String String 3 (by omega)
    (Except.error "network down") (VNode.text "Waiting for doggos:")
    dogResolvedRenderer (by simp [VNode.wf])
    (by simp [dogResolvedRenderer, VNode.wf, wfList])
    (by simp [diff, dogResolvedRenderer])
  refine ⟨h.2.1 2 (by omega) (by omega), ?_⟩
  rw [h.2.2.1 3 (by omega)]
  rfl

mutual

theorem allocTree_spec (t : VNode) (a : Arena) (h : a.used ≤ a.capacity) :
    (allocTree t a).capacity = max a.capacity (a.used + treeSize t) ∧
    (allocTree t a).used = a.used + treeSize t ∧
    (allocTree t a).generation = a.generation := by
  cases t with
  | text s => simp [allocTree, Arena.allocate, treeSize]
  | element tag attrs ls cs =>
      have ha : (a.allocate 1).used ≤ (a.allocate 1).capacity := by
        simp only [Arena.allocate]
        omega
      obtain ⟨hc, hu, hg⟩ := allocList_spec cs (a.allocate 1) ha
      simp only [allocTree]
      refine ⟨?_, ?_, ?_⟩
      · rw [hc]
        simp only [Arena.allocate, treeSize]
        omega
      · rw [hu]
        simp only [Arena.allocate, treeSize]
        omega
      · rw [hg]
        simp [Arena.allocate]
  | fragment cs =>
      have ha : (a.allocate 1).used ≤ (a.allocate 1).capacity := by
        simp only [Arena.allocate]
        omega
      obtain ⟨hc, hu, hg⟩ := allocList_spec cs (a.allocate 1) ha
      simp only [allocTree]
      refine ⟨?_, ?_, ?_⟩
      · rw [hc]
        simp only [Arena.allocate, treeSize]
        omega
      · rw [hu]
        simp only [Arena.allocate, treeSize]
        omega
      · rw [hg]
        simp [Arena.allocate]
  | placeholder i => simp [allocTree, Arena.allocate, treeSize]

theorem allocList_spec (cs : List VNode) (a : Arena)
    (h : a.used ≤ a.capacity) :
    (allocList cs a).capacity = max a.capacity (a.used + listSize cs) ∧
    (allocList cs a).used = a.used + listSize cs ∧
    (allocList cs a).generation = a.generation := by
  cases cs with
  | nil =>
      refine ⟨?_, ?_, ?_⟩
      · simp only [allocList, listSize]
        omega
      · simp only [allocList, listSize]
        omega
      · simp [allocList]
  | cons c cs =>
      obtain ⟨hc1, hu1, hg1⟩ := allocTree_spec c a h
      have ha : (allocTree c a).used ≤ (allocTree c a).capacity := by
        rw [hc1, hu1]
        omega
      obtain ⟨hc2, hu2, hg2⟩ := allocList_spec cs (allocTree c a) ha
      simp only [allocList]
      refine ⟨?_, ?_, ?_⟩
      · rw [hc2, hc1, hu1]
        simp only [listSize]
        omega
      · rw [hu2, hu1]
        simp only [listSize]
        omega
      · rw [hg2, hg1]

end

theorem renderCycle_spec (shape : VNode) (a : Arena) (h : a.used ≤ a.capacity) :
    (renderCycle shape a).capacity = max a.capacity (a.used + treeSize shape) ∧
    (renderCycle shape a).used = 0 ∧
    (renderCycle shape a).generation = a.generation + 1 := by
  obtain ⟨hc, hu, hg⟩ := allocTree_spec shape a h
  refine ⟨?_, rfl, ?_⟩
  · show (allocTree shape a).capacity = _
    exact hc
  · show (allocTree shape a).generation + 1 = _
    rw [hg]

theorem arena_cycles (shape : VNode) (a : Arena) (h : a.used = 0) (k : Nat)
    (hk : 1 ≤ k) :
    ((renderCycle shape)^[k] a).capacity = max a.capacity (treeSize shape) ∧
    ((renderCycle shape)^[k] a).used = 0 ∧
    ((renderCycle shape)^[k] a).generation = a.generation + k := by
  induction k with
  | zero => omega
  | succ n ih =>
      rcases Nat.eq_zero_or_pos n with h0 | hpos
      · subst h0
        rw [Function.iterate_one]
        obtain ⟨hc, hu, hg⟩ := renderCycle_spec shape a (by omega)
        rw [hc, hu, hg, h]
        exact ⟨by omega, rfl, by omega⟩
      · obtain ⟨ihc, ihu, ihg⟩ := ih hpos
        rw [Function.iterate_succ_apply']
        obtain ⟨hc, hu, hg⟩ :=
          renderCycle_spec shape ((renderCycle shape)^[n] a) (by omega)
        rw [hc, hu, hg, ihc, ihu, ihg]
        exact ⟨by omega, rfl, by omega⟩

/-- C9: re-rendering a fixed tree shape repeatedly from an arena whose
current generation is empty stabilises after one warm-up cycle: every cycle
count `k ≥ 1` leaves the same high-water mark (the node count of the shape,
joined with whatever was already acquired), the bump offset back at zero, and
a generation counter advanced once per cycle; resetting a generation never
releases acquired memory (no per-node deallocation, reuse only). -/
theorem arena_steady_state (shape : VNode) (a : Arena) (h : a.used = 0)
    (k : Nat) (hk : 1 ≤ k) :
    ((renderCycle shape)^[k] a).capacity = max a.capacity (treeSize shape) ∧
    ((renderCycle shape)^[k] a).used = 0 ∧
    ((renderCycle shape)^[k] a).generation = a.generation + k ∧
    (∀ b : Arena, (Arena.resetGeneration b).capacity = b.capacity) := by
  obtain ⟨hc, hu, hg⟩ := arena_cycles shape a h k hk
  exact ⟨hc, hu, hg, fun b => rfl⟩

/-- Witness for C9 at a concrete two-node shape from a fresh arena: after two
cycles the high-water mark equals the shape's node count and the generation
is empty. -/
theorem arena_steady_state_witness :
    ((renderCycle (VNode.element "div" [] [] [VNode.text "x"]))^[2]
        ⟨0, 0, 0⟩).capacity = 2 ∧
    ((renderCycle (VNode.element "div" [] [] [VNode.text "x"]))^[2]
        ⟨0, 0, 0⟩).used = 0 := by
  have h := arena_steady_state (VNode.element "div" [] [] [VNode.text "x"])
    ⟨0, 0, 0⟩ rfl 2 (by omega)
  refine ⟨?_, h.2.1⟩
  rw [h.1]
  simp [treeSize, listSize]

/-- C7: diffing a well-formed tree against an identical copy of itself emits
no patch; diffing two trees that differ only in one text node's content emits
exactly one patch, an update-text, hence no insert and no remove. -/
theorem diff_idempotent_text_minimal :
    (∀ (path : List Nat) (t : VNode), t.wf = true → diff path t t = []) ∧
    (∀ (path : List Nat) (a b : VNode), OneTextDiff a b → a.wf = true →
        ∃ p s, diff path a b = [Patch.updateText p s]) :=
  ⟨fun path t h => diff_self path t h,
   fun path a b hd hw => oneTextDiff_patch path a b hd hw⟩

/-- Witness for C7 at concrete trees: a self-diff is empty, and a pure text
change inside a div yields a single update-text patch. -/
theorem diff_idempotent_text_minimal_witness :
    diff [] (VNode.element "div" [("id", "x")] [] [VNode.text "hello"])
        (VNode.element "div" [("id", "x")] [] [VNode.text "hello"]) = [] ∧
    ∃ p s, diff [] (VNode.element "div" [] [] [VNode.text "old"])
        (VNode.element "div" [] [] [VNode.text "new"]) =
      [Patch.updateText p s] := by
  constructor
  · exact diff_idempotent_text_minimal.1 []
      (VNode.element "div" [("id", "x")] [] [VNode.text "hello"])
      (by simp [VNode.wf, wfList])
  · exact diff_idempotent_text_minimal.2 []
      (VNode.element "div" [] [] [VNode.text "old"])
      (VNode.element "div" [] [] [VNode.text "new"])
      (OneTextDiff.inElement "div" [] [] [] [] (VNode.text "old")
        (VNode.text "new") (OneTextDiff.here "old" "new" (by simp)))
      (by simp [VNode.wf, wfList])

/-- C8: for unkeyed child lists where the new list is a shortening of the
old, the diff is the position-matched diffs of the aligned prefix followed by
a pure block of trailing removes; whenever the aligned diffs contain no
insert and no remove (retained items changed only in content), the whole
patch list has exactly `old − new` removes and zero inserts. -/
theorem unkeyed_shrink_pure_removes (path : List Nat) (i : Nat)
    (old new : List VNode) (h : new.length ≤ old.length)
    (hin : ∀ p ∈ diffChildren path i (old.take new.length) new,
        p.isInsert = false ∧ p.isRemove = false) :
    diffChildren path i old new =
      diffChildren path i (old.take new.length) new ++
        (List.range (old.length - new.length)).map
          (fun k => Patch.removeNode (path ++ [i + new.length + k])) ∧
    (diffChildren path i old new).countP (fun p => p.isRemove) =
      old.length - new.length ∧
    (diffChildren path i old new).countP (fun p => p.isInsert) = 0 := by
  have heq := diffChildren_shrink path i old new h
  have hz1 : (diffChildren path i (old.take new.length) new).countP
      (fun p => p.isRemove) = 0 := by
    rw [List.countP_eq_zero]
    intro p hp
    simp [(hin p hp).2]
  have hz2 : (diffChildren path i (old.take new.length) new).countP
      (fun p => p.isInsert) = 0 := by
    rw [List.countP_eq_zero]
    intro p hp
    simp [(hin p hp).1]
  have hr : ((List.range (old.length - new.length)).map
      (fun k => Patch.removeNode (path ++ [i + new.length + k]))).countP
      (fun p => p.isRemove) = old.length - new.length := by
    rw [show ((List.range (old.length - new.length)).map
        (fun k => Patch.removeNode (path ++ [i + new.length + k]))).countP
        (fun p => p.isRemove) = ((List.range (old.length - new.length)).map
        (fun k => Patch.removeNode (path ++ [i + new.length + k]))).length
      from List.countP_eq_length.mpr ?_]
    · simp
    · intro p hp
      simp only [List.mem_map] at hp
      obtain ⟨k, _, hk⟩ := hp
      subst hk
      rfl
  have hi : ((List.range (old.length - new.length)).map
      (fun k => Patch.removeNode (path ++ [i + new.length + k]))).countP
      (fun p => p.isInsert) = 0 := by
    rw [List.countP_eq_zero]
    intro p hp
    simp only [List.mem_map] at hp
    obtain ⟨k, _, hk⟩ := hp
    subst hk
    simp [Patch.isInsert]
  refine ⟨heq, ?_, ?_⟩
  · rw [heq, List.countP_append, hz1, hr]
    omega
  · rw [heq, List.countP_append, hz2, hi]

/-- Witness for C8 at a concrete unkeyed list shrinking from 5 items to 3
with the first two retained items' text changed: exactly 2 removes and 0
inserts. -/
theorem unkeyed_shrink_pure_removes_witness :
    (diffChildren [] 0
        [VNode.element "li" [] [] [VNode.text "1"],
         VNode.element "li" [] [] [VNode.text "2"],
         VNode.element "li" [] [] [VNode.text "3"],
         VNode.element "li" [] [] [VNode.text "4"],
         VNode.element "li" [] [] [VNode.text "5"]]
        [VNode.element "li" [] [] [VNode.text "one"],
         VNode.element "li" [] [] [VNode.text "two"],
         VNode.element "li" [] [] [VNode.text "3"]]).countP
      (fun p => p.isRemove) = 2 ∧
    (diffChildren [] 0
        [VNode.element "li" [] [] [VNode.text "1"],
         VNode.element "li" [] [] [VNode.text "2"],
         VNode.element "li" [] [] [VNode.text "3"],
         VNode.element "li" [] [] [VNode.text "4"],
         VNode.element "li" [] [] [VNode.text "5"]]
        [VNode.element "li" [] [] [VNode.text "one"],
         VNode.element "li" [] [] [VNode.text "two"],
         VNode.element "li" [] [] [VNode.text "3"]]).countP
      (fun p => p.isInsert) = 0 := by
  have h := unkeyed_shrink_pure_removes [] 0
    [VNode.element "li" [] [] [VNode.text "1"],
     VNode.element "li" [] [] [VNode.text "2"],
     VNode.element "li" [] [] [VNode.text "3"],
     VNode.element "li" [] [] [VNode.text "4"],
     VNode.element "li" [] [] [VNode.text "5"]]
    [VNode.element "li" [] [] [VNode.text "one"],
     VNode.element "li" [] [] [VNode.text "two"],
     VNode.element "li" [] [] [VNode.text "3"]]
    (by simp)
    (by
      simp only [List.length_cons, List.length_nil, List.take]
      simp [diffChildren, diff, diffAttrs, Patch.isInsert, Patch.isRemove])
  exact ⟨h.2.1, h.2.2⟩

/-- C10: the `ErrorHandling` component's item list is the fixed non-empty
literal, so the first-item accessor always yields a value, the question-mark
abstention branch is unreachable, and every render produces the `h1` node
with text "First item: a" rather than abstaining. -/
theorem error_handling_never_abstains :
    errorHandlingItems.head? = some "a" ∧
    errorHandlingRender =
      some (VNode.element "h1" [] [] [VNode.text "First item: a"]) ∧
    errorHandlingRender ≠ none := by
  have h2 : errorHandlingRender =
      some (VNode.element "h1" [] [] [VNode.text "First item: a"]) := rfl
  refine ⟨rfl, h2, ?_⟩
  rw [h2]
  exact Option.some_ne_none _

end RenderRuntime
